import Mathlib

/-!
Verification of the notification dispatch engine and provider schema framework
of the thelounge-theme-external-notify plugin.

The JavaScript sources are shallowly embedded: JS objects become association
lists in insertion order, JS undefined becomes Option.none, promises become
Except values, and the mutable manager state (the recent notification set)
is passed explicitly.
-/

namespace ExternalNotify

/-- Model of a JS primitive value as stored in configuration documents.
Absent (undefined) values are modelled as Option.none one level up. -/
inductive JVal where
  | str (s : String)
  | num (n : Int)
  | bool (b : Bool)
  | null
deriving DecidableEq, Repr

/-- JS truthiness test on a value: empty string, 0, false and null are falsy. -/
def JVal.falsy : JVal → Bool
  | .str s => s = ""
  | .num n => n = 0
  | .bool b => !b
  | .null => true

/-- JS String(value) coercion. -/
def JVal.toStr : JVal → String
  | .str s => s
  | .num n => toString n
  | .bool b => if b then "true" else "false"
  | .null => "null"

/-- The expression (value || two single quotes) used when a value is substituted
into a template: falsy values render as the empty string. -/
def JVal.display (v : JVal) : String :=
  if v.falsy then "" else v.toStr

/-- JS typeof on a possibly absent value. -/
def jsTypeof : Option JVal → String
  | some (.str _) => "string"
  | some (.num _) => "number"
  | some (.bool _) => "boolean"
  | some .null => "object"
  | none => "undefined"

/-- JS truthiness of a possibly absent value (undefined is falsy). -/
def jsTruthy : Option JVal → Bool
  | none => false
  | some v => !v.falsy

/-- Property read on a JS object modelled as an insertion-ordered
association list: the value at the first matching key, none when absent. -/
def alistGet {α : Type} (o : List (String × α)) (k : String) : Option α :=
  (o.find? (fun kv => kv.1 = k)).map (fun kv => kv.2)

/-- Property write on a JS object: replaces the value at an existing key in
place, otherwise appends the new key at the end (JS insertion order). -/
def alistSet {α : Type} (o : List (String × α)) (k : String) (v : α) :
    List (String × α) :=
  if (o.find? (fun kv => kv.1 = k)).isSome then
    o.map (fun kv => if kv.1 = k then (k, v) else kv)
  else
    o ++ [(k, v)]

/-- A JS object whose property values are primitives (a ServiceConfig or the
variable map of the template engine). -/
abbrev JObj := List (String × JVal)

/-- Model of JS String.substring(0, n): the first n characters. -/
def substringTo (s : String) (n : Nat) : String :=
  String.mk (s.data.take n)

/-- Model of JS String.startsWith on whole strings. -/
def strStartsWith (s p : String) : Bool :=
  p.data.isPrefixOf s.data

/-- Model of JS String.toLowerCase, character by character. -/
def jsToLower (s : String) : String :=
  String.mk (s.data.map Char.toLower)

/-- Whether a promise outcome is a resolution. -/
def exceptOk {α : Type} : Except String α → Bool
  | .ok _ => true
  | .error _ => false

/-! ### lib/format-template.js -/

/-- Whether a character list contains no dollar character. A dollar in a
replacement string starts a JS String.replace substitution sequence, see
expandDollar. -/
def dollarFree (s : List Char) : Bool :=
  s.all (fun c => c ≠ '$')

/-- Whether a character list contains no JS regex metacharacter. The source
interpolates the raw key into the regex without escaping, so the literal
pattern model of the placeholder is faithful exactly for keys drawn from
this set; the template theorems restrict their variable maps accordingly. -/
def regexSafe (s : List Char) : Bool :=
  s.all (fun c => c ∉ ['.', '*', '+', '?', '^', '$', '(', ')', '[', ']',
    '|', '\\', '{', '}'])

/-- Expansion of the JS dollar substitution sequences of String.replace in
a replacement string: a double dollar yields a literal dollar, dollar
ampersand the matched text, dollar backquote the portion of the subject
before the match, dollar quote the portion after it; every other dollar
sequence stays literal, which is the JS behavior for a pattern without
capture groups (the placeholder pattern has none for a metacharacter free
key). -/
def expandDollar (matched pre post : List Char) : List Char → List Char
  | [] => []
  | c :: rest =>
    if c = '$' then
      match rest with
      | [] => ['$']
      | d :: rest2 =>
        if d = '$' then '$' :: expandDollar matched pre post rest2
        else if d = '&' then matched ++ expandDollar matched pre post rest2
        else if d = Char.ofNat 96 then pre ++ expandDollar matched pre post rest2
        else if d = Char.ofNat 39 then post ++ expandDollar matched pre post rest2
        else '$' :: d :: expandDollar matched pre post rest2
    else c :: expandDollar matched pre post rest

/-- Leftmost, non overlapping, global replacement of a literal pattern: the
semantics of JS String.replace with a global regex of the escaped literal
placeholder, for keys without regex metacharacters. The subject is scanned
left to right; at each match the dollar expanded replacement is emitted and
the scan continues after the match in the original subject. The done
argument holds the consumed part of the subject in reverse, feeding the
dollar backquote expansion. -/
def replaceAllAux (pat rep : List Char) : List Char → List Char → List Char
  | _, [] => []
  | done, c :: cs =>
    if pat ≠ [] ∧ pat.isPrefixOf (c :: cs) then
      expandDollar pat done.reverse (List.drop pat.length (c :: cs)) rep ++
        replaceAllAux pat rep (pat.reverse ++ done) (List.drop pat.length (c :: cs))
    else
      c :: replaceAllAux pat rep (c :: done) cs
termination_by _ l => l.length
decreasing_by
  · simp only [List.length_drop, List.length_cons]
    have : pat.length ≠ 0 := by
      intro h
      exact (by assumption : pat ≠ [] ∧ _).1 (List.eq_nil_of_length_eq_zero h)
    omega
  · simp only [List.length_cons]
    omega

/-- Global replacement over a whole subject: nothing consumed yet. -/
def replaceAll (pat rep l : List Char) : List Char :=
  replaceAllAux pat rep [] l

/-- The literal specialization of replaceAll: replacement text inserted
verbatim. It coincides with replaceAll whenever the replacement contains no
dollar character (replaceAll_eq_lit below) and carries the combinatorial
lemmas about placeholder substitution. -/
def replaceAllLit (pat rep : List Char) : List Char → List Char
  | [] => []
  | c :: cs =>
    if pat ≠ [] ∧ pat.isPrefixOf (c :: cs) then
      rep ++ replaceAllLit pat rep (List.drop pat.length (c :: cs))
    else
      c :: replaceAllLit pat rep cs
termination_by l => l.length
decreasing_by
  · simp only [List.length_drop, List.length_cons]
    have : pat.length ≠ 0 := by
      intro h
      exact (by assumption : pat ≠ [] ∧ _).1 (List.eq_nil_of_length_eq_zero h)
    omega
  · simp only [List.length_cons]
    omega

/-- The literal placeholder pattern for a key: two opening braces, the key,
two closing braces. -/
def placeholderPat (key : String) : List Char :=
  '{' :: '{' :: key.data ++ ['}', '}']

namespace FormatTemplate

/-- FormatTemplate.process from lib/format-template.js: guard against a falsy
or non string template, then for each entry of the variable object in
insertion order, globally replace its placeholder by the value (falsy values
render as the empty string). -/
def process (template : String) (vars : List (String × JVal)) : String :=
  if template = "" then ""
  else
    String.mk (vars.foldl
      (fun result kv => replaceAll (placeholderPat kv.1) kv.2.display.data result)
      template.data)

end FormatTemplate

/-! ### lib/notification-manager.js data model -/

/-- The optional channels block of the filter configuration. The loader and
the tests carry it; shouldNotify is the subject of the channel gating claims. -/
structure ChannelsFilter where
  whitelist : List String
  blacklist : List String
deriving DecidableEq, Repr

/-- FilterConfig as consumed by shouldNotify. -/
structure Filters where
  onlyWhenAway : Bool
  highlights : Bool
  channels : Option ChannelsFilter
deriving DecidableEq, Repr

/-- FormatConfig: the four template strings. A falsy (absent or empty)
template is modelled as the empty string, matching the JS truthiness checks
that guard its use. -/
structure FormatConfig where
  title : String
  titleWithChannel : String
  message : String
  actionMessage : String
deriving DecidableEq, Repr

namespace FormatTemplate

/-- FormatTemplate.getDefaults from lib/format-template.js. -/
def getDefaults : FormatConfig :=
  { title := "{{network}}"
  , titleWithChannel := "{{network}} - {{channel}}"
  , message := "<{{nick}}> {{message}}"
  , actionMessage := "* {{nick}} {{message}}" }

end FormatTemplate

/-- The configuration consumed by the notification manager. The services
block feeds only the dynamic notifier loading, which is outside the embedded
operations, so it is not carried here. -/
structure NMConfig where
  filters : Filters
  format : Option FormatConfig
deriving DecidableEq, Repr

/-- The message data delivered by the host for one chat event. The timestamp
is an abstract instant (epoch milliseconds). -/
structure MessageData where
  type : String
  network : String
  channel : String
  nick : String
  message : String
  highlight : Bool
  timestamp : Nat
deriving DecidableEq, Repr

/-- The user record of a client, carrying the away flag. -/
structure UserInfo where
  away : Bool
deriving DecidableEq, Repr

/-- The client handle passed to shouldNotify; client.user may be absent. -/
structure ClientInfo where
  user : Option UserInfo
deriving DecidableEq, Repr

/-- Rendering of Date.toLocaleString for the date variable. The exact locale
text is display only and no claim depends on it; the model renders the raw
instant deterministically. -/
def localeDate (t : Nat) : String := "date:" ++ toString t

/-- Rendering of Date.toLocaleTimeString for the time variable; display only. -/
def localeTime (t : Nat) : String := "time:" ++ toString t

/-- Rendering of Date.toISOString for the timestamp variable; display only. -/
def isoString (t : Nat) : String := "iso:" ++ toString t

namespace FormatTemplate

/-- FormatTemplate.getVariables from lib/format-template.js: the variable
object in its JS insertion order. A channel that is falsy or does not start
with the hash sign displays as PM. -/
def getVariables (m : MessageData) : List (String × JVal) :=
  let channelDisplay :=
    if m.channel = "" ∨ ¬ (strStartsWith m.channel "#") then "PM" else m.channel
  [ ("date", .str (localeDate m.timestamp))
  , ("timestamp", .str (isoString m.timestamp))
  , ("time", .str (localeTime m.timestamp))
  , ("nick", .str m.nick)
  , ("user", .str m.nick)
  , ("message", .str m.message)
  , ("text", .str m.message)
  , ("channel", .str channelDisplay)
  , ("network", .str m.network)
  , ("server", .str m.network)
  , ("type", .str (if m.type = "" then "message" else m.type)) ]

end FormatTemplate

/-- The notification record produced by formatNotification. -/
structure Notification where
  title : String
  message : String
  timestamp : Nat
deriving DecidableEq, Repr

namespace NotificationManager

/-- NotificationManager.shouldNotify: when onlyWhenAway is set, a present and
not away user suppresses the notification; then the highlight gate decides.
The channels block of the filters is never consulted by the source. -/
def shouldNotify (config : NMConfig) (m : MessageData) (client : ClientInfo) :
    Bool :=
  let userNotAway : Bool :=
    match client.user with
    | some u => !u.away
    | none => false
  if config.filters.onlyWhenAway && userNotAway then
    false
  else if config.filters.highlights && m.highlight then
    true
  else
    false

/-- NotificationManager.getDeduplicationKey: network, channel, nick and the
first 50 characters of the message, joined by hyphens. -/
def getDeduplicationKey (m : MessageData) : String :=
  m.network ++ "-" ++ m.channel ++ "-" ++ m.nick ++ "-" ++
    substringTo m.message 50

/-- NotificationManager.formatNotification: pick the title template by the
channel shape, the message template by the event type, then render both. -/
def formatNotification (config : NMConfig) (m : MessageData) : Notification :=
  let format := config.format.getD FormatTemplate.getDefaults
  let vars := FormatTemplate.getVariables m
  let isChannelMessage := m.channel ≠ "" ∧ strStartsWith m.channel "#"
  let titleTemplate :=
    if isChannelMessage ∧ format.titleWithChannel ≠ "" then
      format.titleWithChannel
    else format.title
  let messageTemplate :=
    if m.type = "action" ∧ format.actionMessage ≠ "" then
      format.actionMessage
    else format.message
  { title := FormatTemplate.process titleTemplate vars
  , message := FormatTemplate.process messageTemplate vars
  , timestamp := m.timestamp }

/-- One entry of the notifier map: the service name together with the
outcome of its asynchronous send for a given notification (ok when the
promise resolves, error when it rejects or the send throws). -/
structure NotifierEntry where
  name : String
  send : Notification → Except String Unit

/-- One fan out attempt: send(notification).then(record name).catch(log).
The catch handler swallows the rejection, so the attempt promise always
resolves; it carries the name exactly when the send resolved. -/
def sendAttempt (nb : NotifierEntry) (notif : Notification) :
    Except String (Option String) :=
  match nb.send notif with
  | .ok _ => .ok (some nb.name)
  | .error _ => .ok none

/-- Promise.all: resolves with the list of results, rejects as soon as any
input promise rejects. -/
def promiseAll {α : Type} : List (Except String α) → Except String (List α)
  | [] => .ok []
  | r :: rs =>
    match r with
    | .error e => .error e
    | .ok v =>
      match promiseAll rs with
      | .ok vs => .ok (v :: vs)
      | .error e => .error e


/-- The resolved value of processMessage when a notification went out. -/
structure DispatchResult where
  notification : Notification
  services : List String
  messageData : MessageData

/-- NotificationManager.processMessage. The recent notification set is
passed and returned explicitly; the overall Except is the promise returned
by the async method (error would mean the awaited fan out rejected and the
exception escaped processMessage). -/
def processMessage (config : NMConfig) (notifiers : List NotifierEntry)
    (recent : List String) (m : MessageData) (client : ClientInfo) :
    Except String (Option DispatchResult) × List String :=
  if !shouldNotify config m client then
    (.ok none, recent)
  else
    let dedupKey := getDeduplicationKey m
    if dedupKey ∈ recent then
      (.ok none, recent)
    else
      let recent2 := dedupKey :: recent
      let notification := formatNotification config m
      match promiseAll (notifiers.map (fun nb => sendAttempt nb notification)) with
      | .error e => (.error e, recent2)
      | .ok results =>
        (.ok (some { notification := notification
                   , services := results.filterMap id
                   , messageData := m }), recent2)

end NotificationManager

/-! ### lib/notifiers/base.js (BaseNotifier) -/

/-- A raw field descriptor as declared by a provider schema. Absent JS
properties are none; a validator receives the possibly undefined stored
value. -/
structure RawDescriptor where
  defaultVal : Option JVal := none
  exampleVal : Option JVal := none
  description : Option String := none
  required : Option Bool := none
  validationError : Option String := none
  validate : Option (Option JVal → Bool) := none

namespace BaseNotifier

/-- The body of the registerVariables setter for one field: default the
required flag to false, copy the default into a missing example, synthesize
the validation error text, and synthesize an always true validator. -/
def normalizeDescriptor (key : String) (d : RawDescriptor) : RawDescriptor :=
  let d1 := match d.required with
    | none => { d with required := some false }
    | some _ => d
  let d2 := match d1.exampleVal, d1.defaultVal with
    | none, some dv => { d1 with exampleVal := some dv }
    | _, _ => d1
  let d3 := match d2.validationError with
    | none => { d2 with validationError := some ("Invalid value for " ++ key) }
    | some _ => d2
  match d3.validate with
  | none => { d3 with validate := some (fun _ => true) }
  | some _ => d3

/-- The registerVariables setter: normalize every field of the raw map. -/
def setRegisterVariables (value : List (String × RawDescriptor)) :
    List (String × RawDescriptor) :=
  value.map (fun kv => (kv.1, normalizeDescriptor kv.1 kv.2))

/-- Property read on a ServiceConfig object (this.config[key]). -/
def configGet (cfg : JObj) (k : String) : Option JVal :=
  alistGet cfg k

/-- Whether one descriptor rejects the stored value: a truthy required flag
with an undefined, null or empty value, or a present validator returning
false. -/
def descriptorFails (kv : String × RawDescriptor) (cfg : JObj) : Bool :=
  let value := configGet cfg kv.1
  (kv.2.required.getD false &&
    (value = none ∨ value = some .null ∨ value = some (.str ""))) ||
  (match kv.2.validate with
   | some f => !f value
   | none => false)

/-- BaseNotifier.validate: walk the declared fields in order and fail on the
first field whose required or validator check rejects the stored value. -/
def validate : List (String × RawDescriptor) → JObj → Bool
  | [], _ => true
  | (key, v) :: rest, cfg =>
    let value := configGet cfg key
    if v.required.getD false &&
        (value = none ∨ value = some .null ∨ value = some (.str "")) then
      false
    else if (match v.validate with
             | some f => !f value
             | none => false) then
      false
    else
      validate rest cfg

/-- BaseNotifier.validateWithLogging: the same walk, but it also reports the
validation error of the failing field (falling back to a generic message when
the descriptor carries no truthy error text) and stops there. Returns the
boolean together with the logged error lines. -/
def validateWithLogging (name : String) :
    List (String × RawDescriptor) → JObj → Bool × List String
  | [], _ => (true, [])
  | (key, v) :: rest, cfg =>
    let value := configGet cfg key
    let validationError :=
      match v.validationError with
      | some s =>
        if s = "" then "Configuration error: " ++ key ++ " is required for " ++ name
        else s
      | none => "Configuration error: " ++ key ++ " is required for " ++ name
    if v.required.getD false &&
        (value = none ∨ value = some .null ∨ value = some (.str "")) then
      (false, [validationError])
    else if (match v.validate with
             | some f => !f value
             | none => false) then
      (false, [validationError])
    else
      validateWithLogging name rest cfg

/-- The fallback default value for a field (part of defaultServiceConfig):
the declared default, else the example, else null. The typed switch in the
source is unreachable because a defined example or default is always taken
by the earlier branches, leaving only the undefined case. -/
def defaultValueFor (v : RawDescriptor) : JVal :=
  match v.defaultVal with
  | some dv => dv
  | none =>
    match v.exampleVal with
    | some ev => ev
    | none => JVal.null

/-- The notifier identity that handleConfig operates on: its service name
and its (already set) register variables. -/
structure NotifierState where
  name : String
  registerVariables : List (String × RawDescriptor)

/-- BaseNotifier.defaultServiceConfig in its built form (the base class
starts with an empty override, so the getter constructs the object):
disabled, then one default value per declared field in order. -/
def defaultServiceConfig (n : NotifierState) : JObj :=
  ("enabled", JVal.bool false) ::
    n.registerVariables.map (fun kv => (kv.1, defaultValueFor kv.2))

/-- The top level configuration document handleConfig mutates. Only the
services block is touched by it. -/
structure ConfigDoc where
  services : Option (List (String × JObj))
deriving DecidableEq, Repr

end BaseNotifier

/-! Console formatting helpers from lib/format.js. That module is not part
of the provided sources; the helpers are modelled from the spec, which only
requires every error to be a short human readable string. The color escape
sequences are display only and modelled as empty strings. -/

/-- Modelled from the spec: lib/format.js is absent from the sources; the
color constants are terminal escape sequences, display only. -/
def Ccolor : String := ""

/-- Modelled from the spec: error line formatting of lib/format.js. -/
def Ferror (s : String) : String := "Error: " ++ s

/-- Modelled from the spec: success line formatting of lib/format.js. -/
def Fsuccess (s : String) : String := "Success: " ++ s

/-- Modelled from the spec: indentation helper of lib/format.js. -/
def Findent (n : Nat) : String := String.mk (List.replicate (2 * n) ' ')

namespace BaseNotifier

/-- JS parseFloat on the submitted textual value. Floating point semantics
are out of scope; the model parses integers, and no claim depends on the
numeric case. A failed parse models NaN. -/
def parseNatChars : List Char → Option Nat
  | [] => none
  | cs =>
    cs.foldl
      (fun acc c =>
        match acc with
        | some a => if c.isDigit then some (a * 10 + (c.toNat - 48)) else none
        | none => none)
      (some 0)

/-- JS parseFloat on the submitted textual value, restricted to integer
literals. Floating point semantics are out of scope and no claim depends on
the numeric case; a failed parse models NaN. -/
def jsParseFloat (s : String) : Option Int :=
  match s.data with
  | '-' :: rest => (parseNatChars rest).map (fun n => -(n : Int))
  | l => (parseNatChars l).map (fun n => (n : Int))

/-- The value parsing step of handleConfig: the switch is driven by the
typeof of the example value of the matched descriptor (number and boolean
examples coerce the submitted string, everything else stores it verbatim),
returning the error messages of the failure branches otherwise. -/
def parseValue (v : RawDescriptor) (setting value : String) :
    Except (List String) JVal :=
  match jsTypeof v.exampleVal with
  | "number" =>
    match jsParseFloat value with
    | some x => .ok (.num x)
    | none => .error [Ferror ("Invalid value for " ++ setting ++ ": expected a number")]
  | "boolean" =>
    let lv := value.toLower
    if lv = "true" ∨ lv = "1" then .ok (.bool true)
    else if lv = "false" ∨ lv = "0" then .ok (.bool false)
    else .error [Ferror ("Invalid value for " ++ setting ++ ": expected a boolean (true/false)")]
  | _ => .ok (.str value)

/-- The result object of handleConfig. The autoEnabled property is only set
on the success path, hence the Option. -/
structure HCResult where
  success : Bool
  messages : List String
  autoEnabled : Option Bool := none

/-- BaseNotifier.handleConfig: materialize the services block and the
default ServiceConfig entry when missing, resolve the submitted setting name
case insensitively against the declared keys, parse and validate the value,
store it under the canonical key, and auto enable the service when the
updated ServiceConfig now passes full validation. -/
def handleConfig (n : NotifierState) (config : ConfigDoc)
    (setting value : String) : ConfigDoc × HCResult :=
  let services0 := config.services.getD []
  let services1 :=
    if (alistGet services0 n.name).isNone then
      alistSet services0 n.name (defaultServiceConfig n)
    else services0
  let config1 : ConfigDoc := ⟨some services1⟩
  match n.registerVariables.find? (fun kv => jsToLower kv.1 = jsToLower setting) with
  | none =>
    (config1,
     { success := false
     , messages :=
        [ Ferror ("Unknown " ++ n.name ++ " setting: " ++ Ccolor ++ setting ++ Ccolor)
        , Findent 1 ++ "Valid settings: " ++ Ccolor ++
            String.intercalate ", " (n.registerVariables.map (fun kv => kv.1)) ++
            Ccolor ] })
  | some (actualKey, varDesc) =>
    match parseValue varDesc setting value with
    | .error msgs => (config1, { success := false, messages := msgs })
    | .ok parsedValue =>
      if (match varDesc.validate with
          | some f => !f (some parsedValue)
          | none => false) then
        (config1,
         { success := false
         , messages := [Ferror (varDesc.validationError.getD "undefined")] })
      else
        let svc := (alistGet services1 n.name).getD []
        let svc2 := alistSet svc actualKey parsedValue
        let services2 := alistSet services1 n.name svc2
        let baseMsgs :=
          [Fsuccess (n.name ++ " setting " ++ Ccolor ++ actualKey ++ Ccolor ++ " updated")]
        if !jsTruthy (alistGet svc2 "enabled") && validate n.registerVariables svc2 then
          let svc3 := alistSet svc2 "enabled" (.bool true)
          (⟨some (alistSet services2 n.name svc3)⟩,
           { success := true
           , messages := baseMsgs ++
               [Fsuccess (n.name ++ " service auto-enabled (all required fields are set)")]
           , autoEnabled := some true })
        else
          (⟨some services2⟩,
           { success := true, messages := baseMsgs, autoEnabled := some false })

end BaseNotifier

/-! ### Well formed templates

Abstract syntax for template strings used to state what the template engine
does: a sequence of literal pieces and placeholders. A well formed template
keeps brace characters out of its literal pieces and keys; the flattening of
such syntax covers every template the repository uses. -/

/-- Whether a character list contains no brace characters. -/
def braceFree (s : List Char) : Bool :=
  s.all (fun c => c ≠ '{' ∧ c ≠ '}')

/-- One piece of a template: literal text or a placeholder for a key. -/
inductive Chunk where
  | lit (s : String)
  | ph (k : String)
deriving DecidableEq, Repr

/-- The characters contributed by one chunk. -/
def chunkStr : Chunk → List Char
  | .lit s => s.data
  | .ph k => placeholderPat k

/-- The template string denoted by a chunk sequence. -/
def flattenChunks (cs : List Chunk) : List Char :=
  (cs.map chunkStr).flatten

/-- Well formedness of one chunk: literal text and keys are brace free. -/
def goodChunk : Chunk → Bool
  | .lit s => braceFree s.data
  | .ph k => braceFree k.data

/-- Substitution of one variable in the abstract template: every placeholder
for the key becomes the rendered value as literal text. -/
def substPh (k v : String) (cs : List Chunk) : List Chunk :=
  cs.map (fun c =>
    match c with
    | .ph x => if x = k then .lit v else .ph x
    | .lit s => .lit s)

/-- Substitution of a whole variable map, in object insertion order. -/
def substAll (vars : List (String × JVal)) (cs : List Chunk) : List Chunk :=
  vars.foldl (fun acc kv => substPh kv.1 kv.2.display acc) cs

/-- Well formedness of a variable map: keys brace free and free of regex
metacharacters (the source interpolates the raw key into the regex without
escaping), rendered values brace free and free of dollar characters (a
dollar would start a String.replace substitution sequence, see
expandDollar). On this domain the literal placeholder model coincides with
the JS replacement the source performs. -/
def goodVars (vars : List (String × JVal)) : Bool :=
  vars.all (fun kv => braceFree kv.1.data && regexSafe kv.1.data &&
    braceFree kv.2.display.data && dollarFree kv.2.display.data)

end ExternalNotify

/-! ## Helper lemmas -/

namespace ExternalNotify

theorem replaceAllLit_nil (pat rep : List Char) : replaceAllLit pat rep [] = [] := by
  rw [replaceAllLit]

theorem replaceAllLit_pos (pat rep : List Char) (c : Char) (cs : List Char)
    (h1 : pat ≠ []) (h2 : pat.isPrefixOf (c :: cs)) :
    replaceAllLit pat rep (c :: cs) =
      rep ++ replaceAllLit pat rep (List.drop pat.length (c :: cs)) := by
  rw [replaceAllLit]
  simp [h1, h2]

theorem replaceAllLit_neg (pat rep : List Char) (c : Char) (cs : List Char)
    (h : ¬ pat.isPrefixOf (c :: cs)) :
    replaceAllLit pat rep (c :: cs) = c :: replaceAllLit pat rep cs := by
  rw [replaceAllLit]
  simp [h]

theorem replaceAllLit_stop (pat rep : List Char) (c : Char) (cs : List Char)
    (h : ¬ (pat ≠ [] ∧ pat.isPrefixOf (c :: cs))) :
    replaceAllLit pat rep (c :: cs) = c :: replaceAllLit pat rep cs := by
  rw [replaceAllLit]
  simp only [if_neg h]

theorem replaceAllAux_nil (pat rep done : List Char) :
    replaceAllAux pat rep done [] = [] := by
  rw [replaceAllAux]

theorem replaceAllAux_pos (pat rep done : List Char) (c : Char) (cs : List Char)
    (h1 : pat ≠ []) (h2 : pat.isPrefixOf (c :: cs)) :
    replaceAllAux pat rep done (c :: cs) =
      expandDollar pat done.reverse (List.drop pat.length (c :: cs)) rep ++
        replaceAllAux pat rep (pat.reverse ++ done)
          (List.drop pat.length (c :: cs)) := by
  rw [replaceAllAux]
  simp [h1, h2]

theorem replaceAllAux_neg (pat rep done : List Char) (c : Char) (cs : List Char)
    (h : ¬ (pat ≠ [] ∧ pat.isPrefixOf (c :: cs))) :
    replaceAllAux pat rep done (c :: cs) =
      c :: replaceAllAux pat rep (c :: done) cs := by
  rw [replaceAllAux]
  simp only [if_neg h]

theorem expandDollar_id (matched pre post rep : List Char)
    (h : dollarFree rep = true) :
    expandDollar matched pre post rep = rep := by
  induction rep with
  | nil => rfl
  | cons c rest ih =>
    simp only [dollarFree, List.all_cons, Bool.and_eq_true, decide_eq_true_eq] at h
    rw [expandDollar.eq_def]
    simp only [if_neg h.1]
    rw [ih (by simp only [dollarFree]; exact h.2)]

theorem replaceAllAux_eq_lit (pat rep : List Char) (hrep : dollarFree rep = true) :
    ∀ (n : Nat) (l done : List Char), l.length ≤ n →
      replaceAllAux pat rep done l = replaceAllLit pat rep l := by
  intro n
  induction n with
  | zero =>
    intro l done hlen
    have hnil : l = [] := List.eq_nil_of_length_eq_zero (Nat.le_zero.mp hlen)
    subst hnil
    rw [replaceAllAux_nil, replaceAllLit_nil]
  | succ n ih =>
    intro l done hlen
    cases l with
    | nil => rw [replaceAllAux_nil, replaceAllLit_nil]
    | cons c cs =>
      by_cases hm : pat ≠ [] ∧ pat.isPrefixOf (c :: cs)
      · rw [replaceAllAux_pos pat rep done c cs hm.1 hm.2,
          replaceAllLit_pos pat rep c cs hm.1 hm.2,
          expandDollar_id _ _ _ _ hrep]
        congr 1
        apply ih
        have hp : 1 ≤ pat.length := by
          cases hpat : pat with
          | nil => exact absurd hpat hm.1
          | cons a as => simp
        simp only [List.length_drop, List.length_cons]
        simp only [List.length_cons] at hlen
        omega
      · rw [replaceAllAux_neg pat rep done c cs hm,
          replaceAllLit_stop pat rep c cs hm]
        congr 1
        apply ih
        simp only [List.length_cons] at hlen
        omega

theorem replaceAll_eq_lit (pat rep l : List Char) (hrep : dollarFree rep = true) :
    replaceAll pat rep l = replaceAllLit pat rep l :=
  replaceAllAux_eq_lit pat rep hrep l.length l [] (Nat.le_refl _)

theorem replaceAllAux_self (pat rep done t : List Char) (h : pat ≠ []) :
    replaceAllAux pat rep done (pat ++ t) =
      expandDollar pat done.reverse t rep ++
        replaceAllAux pat rep (pat.reverse ++ done) t := by
  cases pat with
  | nil => exact absurd rfl h
  | cons p ps =>
    have hpre : (p :: ps).isPrefixOf (p :: (ps ++ t)) := by
      rw [show p :: (ps ++ t) = (p :: ps) ++ t from rfl,
        List.isPrefixOf_iff_prefix]
      exact List.prefix_append _ _
    rw [List.cons_append, replaceAllAux_pos _ _ _ _ _ (by simp) hpre]
    rw [show p :: (ps ++ t) = (p :: ps) ++ t from rfl, List.drop_left]

theorem foldl_replace_eq_lit (vars : List (String × JVal))
    (h : ∀ kv ∈ vars, dollarFree kv.2.display.data = true) :
    ∀ init : List Char,
    vars.foldl
      (fun result kv => replaceAll (placeholderPat kv.1) kv.2.display.data result)
      init =
    vars.foldl
      (fun result kv => replaceAllLit (placeholderPat kv.1) kv.2.display.data result)
      init := by
  induction vars with
  | nil => intro init; rfl
  | cons kv rest ih =>
    intro init
    rw [List.foldl_cons, List.foldl_cons]
    rw [replaceAll_eq_lit _ _ _ (h kv (by simp))]
    exact ih (fun kv2 hkv2 => h kv2 (by simp [hkv2])) _

theorem alistGet_cons_eq {α : Type} (p : String × α) (rest : List (String × α))
    (k : String) (h : p.1 = k) : alistGet (p :: rest) k = some p.2 := by
  simp [alistGet, List.find?_cons, h]

theorem alistGet_cons_ne {α : Type} (p : String × α) (rest : List (String × α))
    (k : String) (h : p.1 ≠ k) : alistGet (p :: rest) k = alistGet rest k := by
  simp [alistGet, List.find?_cons, h]

theorem alistSet_cons_eq {α : Type} (p : String × α) (rest : List (String × α))
    (k : String) (v : α) (h : p.1 = k) :
    alistSet (p :: rest) k v =
      (k, v) :: rest.map (fun kv => if kv.1 = k then (k, v) else kv) := by
  simp [alistSet, List.find?_cons, h]

theorem alistSet_cons_ne {α : Type} (p : String × α) (rest : List (String × α))
    (k : String) (v : α) (h : p.1 ≠ k) :
    alistSet (p :: rest) k v = p :: alistSet rest k v := by
  by_cases h2 : (rest.find? (fun kv => kv.1 = k)).isSome
  · simp [alistSet, List.find?_cons, h, h2]
  · simp [alistSet, List.find?_cons, h, h2]

theorem alistGet_map_subst {α : Type} (rest : List (String × α))
    (k k' : String) (v : α) (hne : k' ≠ k) :
    alistGet (rest.map (fun kv => if kv.1 = k then (k, v) else kv)) k' =
      alistGet rest k' := by
  induction rest with
  | nil => rfl
  | cons p rest ih =>
    by_cases h : p.1 = k
    · rw [List.map_cons, if_pos h]
      rw [alistGet_cons_ne _ _ _ (show (k, v).1 ≠ k' from Ne.symm hne)]
      rw [alistGet_cons_ne _ _ _ (show p.1 ≠ k' from h ▸ Ne.symm hne)]
      exact ih
    · rw [List.map_cons, if_neg h]
      by_cases h2 : p.1 = k'
      · rw [alistGet_cons_eq _ _ _ h2, alistGet_cons_eq _ _ _ h2]
      · rw [alistGet_cons_ne _ _ _ h2, alistGet_cons_ne _ _ _ h2]
        exact ih

theorem alistGet_set_self {α : Type} (o : List (String × α)) (k : String) (v : α) :
    alistGet (alistSet o k v) k = some v := by
  induction o with
  | nil =>
    unfold alistSet
    simp [alistGet, List.find?]
  | cons p rest ih =>
    by_cases h : p.1 = k
    · rw [alistSet_cons_eq _ _ _ _ h, alistGet_cons_eq _ _ _ rfl]
    · rw [alistSet_cons_ne _ _ _ _ h, alistGet_cons_ne _ _ _ h]
      exact ih

theorem alistGet_set_ne {α : Type} (o : List (String × α)) (k k' : String)
    (v : α) (hne : k' ≠ k) :
    alistGet (alistSet o k v) k' = alistGet o k' := by
  induction o with
  | nil =>
    unfold alistSet
    simp [alistGet, List.find?, Ne.symm hne]
  | cons p rest ih =>
    by_cases h : p.1 = k
    · rw [alistSet_cons_eq _ _ _ _ h]
      rw [alistGet_cons_ne _ _ _ (show (k, v).1 ≠ k' from Ne.symm hne)]
      rw [alistGet_cons_ne _ _ _ (show p.1 ≠ k' from h ▸ Ne.symm hne)]
      exact alistGet_map_subst rest k k' v hne
    · rw [alistSet_cons_ne _ _ _ _ h]
      by_cases h2 : p.1 = k'
      · rw [alistGet_cons_eq _ _ _ h2, alistGet_cons_eq _ _ _ h2]
      · rw [alistGet_cons_ne _ _ _ h2, alistGet_cons_ne _ _ _ h2]
        exact ih

end ExternalNotify

namespace ExternalNotify

theorem isPrefixOf_cons_cons (a b : Char) (as bs : List Char) :
    (a :: as).isPrefixOf (b :: bs) = (a == b && as.isPrefixOf bs) := rfl

theorem not_isPrefixOf_head_ne (a b : Char) (as bs : List Char) (h : a ≠ b) :
    ¬ (a :: as).isPrefixOf (b :: bs) := by
  rw [isPrefixOf_cons_cons]
  simp [h]

theorem braceFree_iff (s : List Char) :
    braceFree s = true ↔ ∀ c ∈ s, c ≠ '{' ∧ c ≠ '}' := by
  simp [braceFree, List.all_eq_true]

theorem replaceAllLit_append_self (pat rep t : List Char) (h : pat ≠ []) :
    replaceAllLit pat rep (pat ++ t) = rep ++ replaceAllLit pat rep t := by
  cases pat with
  | nil => exact absurd rfl h
  | cons p ps =>
    have hpre : (p :: ps).isPrefixOf (p :: (ps ++ t)) := by
      rw [show p :: (ps ++ t) = (p :: ps) ++ t from rfl,
        List.isPrefixOf_iff_prefix]
      exact List.prefix_append _ _
    rw [List.cons_append, replaceAllLit_pos _ _ _ _ (by simp) hpre]
    congr 1
    rw [show p :: (ps ++ t) = (p :: ps) ++ t from rfl, List.drop_left]

theorem replaceAllLit_skip (ps rep s t : List Char) (hs : ∀ c ∈ s, c ≠ '{') :
    replaceAllLit ('{' :: ps) rep (s ++ t) = s ++ replaceAllLit ('{' :: ps) rep t := by
  induction s with
  | nil => simp
  | cons c cs ih =>
    have hc : c ≠ '{' := hs c (by simp)
    rw [List.cons_append,
      replaceAllLit_neg _ _ _ _ (not_isPrefixOf_head_ne _ _ _ _ (Ne.symm hc)),
      ih (fun d hd => hs d (by simp [hd])), List.cons_append]

theorem closePat_no_match (a : List Char) :
    ∀ (b t : List Char), (∀ c ∈ a, c ≠ '{' ∧ c ≠ '}') →
    (∀ c ∈ b, c ≠ '{' ∧ c ≠ '}') → a ≠ b →
    ¬ (a ++ ['}', '}']).isPrefixOf (b ++ '}' :: '}' :: t) := by
  induction a with
  | nil =>
    intro b t _ hb hne
    cases b with
    | nil => exact absurd rfl hne
    | cons d bs =>
      have hd : d ≠ '}' := (hb d (by simp)).2
      rw [List.nil_append, List.cons_append]
      exact not_isPrefixOf_head_ne _ _ _ _ (Ne.symm hd)
  | cons c as ih =>
    intro b t ha hb hne
    cases b with
    | nil =>
      have hc : c ≠ '}' := (ha c (by simp)).2
      rw [List.cons_append, List.nil_append]
      exact not_isPrefixOf_head_ne _ _ _ _ hc
    | cons d bs =>
      by_cases hcd : c = d
      · subst hcd
        rw [List.cons_append, List.cons_append, isPrefixOf_cons_cons]
        simp only [beq_self_eq_true, Bool.true_and]
        exact ih bs t (fun x hx => ha x (by simp [hx]))
          (fun x hx => hb x (by simp [hx]))
          (fun he => hne (by rw [he]))
      · rw [List.cons_append, List.cons_append]
        exact not_isPrefixOf_head_ne _ _ _ _ hcd

theorem ph_not_prefix_ph (k x : String) (t : List Char)
    (hk : braceFree k.data) (hx : braceFree x.data) (hne : x ≠ k) :
    ¬ (placeholderPat k).isPrefixOf (placeholderPat x ++ t) := by
  have hdata : k.data ≠ x.data := fun he => hne (String.ext he.symm)
  have base := closePat_no_match k.data x.data t
    ((braceFree_iff _).mp hk) ((braceFree_iff _).mp hx) hdata
  simp only [placeholderPat, List.cons_append, List.append_assoc] at base ⊢
  rw [isPrefixOf_cons_cons, isPrefixOf_cons_cons]
  simp only [beq_self_eq_true, Bool.true_and]
  simpa using base

end ExternalNotify

namespace ExternalNotify

theorem replaceAllLit_skip_ph (k x : String) (rep t : List Char)
    (hk : braceFree k.data) (hx : braceFree x.data) (hne : x ≠ k) :
    replaceAllLit (placeholderPat k) rep (placeholderPat x ++ t) =
      placeholderPat x ++ replaceAllLit (placeholderPat k) rep t := by
  have hxcs := (braceFree_iff _).mp hx
  have e : placeholderPat x ++ t = '{' :: ('{' :: (x.data ++ '}' :: '}' :: t)) := by
    simp [placeholderPat]
  have hA : ¬ (placeholderPat k).isPrefixOf ('{' :: ('{' :: (x.data ++ '}' :: '}' :: t))) := by
    rw [← e]
    exact ph_not_prefix_ph k x t hk hx hne
  have hB : ¬ (placeholderPat k).isPrefixOf ('{' :: (x.data ++ '}' :: '}' :: t)) := by
    show ¬ ('{' :: ('{' :: (k.data ++ ['}', '}']))).isPrefixOf _
    rw [isPrefixOf_cons_cons]
    cases hxd : x.data with
    | nil =>
      simp only [hxd, List.nil_append]
      simp [isPrefixOf_cons_cons]
    | cons c cs =>
      have hc : c ≠ '{' := (hxcs c (by rw [hxd]; simp)).1
      simp only [hxd, List.cons_append]
      simp [isPrefixOf_cons_cons, Ne.symm hc]
  rw [e]
  rw [replaceAllLit_neg _ _ _ _ hA]
  rw [replaceAllLit_neg _ _ _ _ hB]
  have hskip : replaceAllLit (placeholderPat k) rep (x.data ++ ('}' :: '}' :: t)) =
      x.data ++ replaceAllLit (placeholderPat k) rep ('}' :: '}' :: t) := by
    show replaceAllLit ('{' :: ('{' :: (k.data ++ ['}', '}']))) rep _ = _
    exact replaceAllLit_skip _ _ _ _ (fun c hc => ((hxcs c hc).1))
  rw [hskip]
  have hC : ¬ (placeholderPat k).isPrefixOf ('}' :: ('}' :: t)) := by
    show ¬ ('{' :: ('{' :: (k.data ++ ['}', '}']))).isPrefixOf _
    exact not_isPrefixOf_head_ne _ _ _ _ (by decide)
  have hD : ¬ (placeholderPat k).isPrefixOf ('}' :: t) := by
    show ¬ ('{' :: ('{' :: (k.data ++ ['}', '}']))).isPrefixOf _
    cases t with
    | nil => simp [List.isPrefixOf]
    | cons u us => exact not_isPrefixOf_head_ne _ _ _ _ (by decide)
  rw [replaceAllLit_neg _ _ _ _ hC]
  rw [replaceAllLit_neg _ _ _ _ hD]
  simp [placeholderPat]

theorem substPh_good (k v : String) (hv : braceFree v.data) (cs : List Chunk)
    (hcs : ∀ c ∈ cs, goodChunk c) : ∀ c ∈ substPh k v cs, goodChunk c := by
  intro c hc
  simp only [substPh, List.mem_map] at hc
  obtain ⟨c0, hc0, hmap⟩ := hc
  have hg := hcs c0 hc0
  cases c0 with
  | lit s => simpa [← hmap] using hg
  | ph x =>
    by_cases hx : x = k
    · simp only [hx, if_pos rfl] at hmap
      simpa [← hmap, goodChunk] using hv
    · simp only [if_neg hx] at hmap
      simpa [← hmap] using hg

theorem replaceAllLit_flatten (k v : String) (hk : braceFree k.data) :
    ∀ cs : List Chunk, (∀ c ∈ cs, goodChunk c) →
    replaceAllLit (placeholderPat k) v.data (flattenChunks cs) =
      flattenChunks (substPh k v cs) := by
  intro cs
  induction cs with
  | nil =>
    intro _
    simp [flattenChunks, substPh, replaceAllLit_nil]
  | cons c cs ih =>
    intro hgood
    have hs := hgood c (by simp)
    have ihcs := ih (fun d hd => hgood d (by simp [hd]))
    cases c with
    | lit s =>
      have hlit : ∀ d ∈ s.data, d ≠ '{' :=
        fun d hd => ((braceFree_iff _).mp (by simpa [goodChunk] using hs) d hd).1
      show replaceAllLit (placeholderPat k) v.data (s.data ++ flattenChunks cs) =
        s.data ++ flattenChunks (substPh k v cs)
      rw [show placeholderPat k = '{' :: ('{' :: (k.data ++ ['}', '}'])) from rfl]
      rw [replaceAllLit_skip _ _ _ _ hlit]
      rw [← show placeholderPat k = '{' :: ('{' :: (k.data ++ ['}', '}'])) from rfl]
      rw [ihcs]
    | ph x =>
      have hflat : flattenChunks (Chunk.ph x :: cs) =
          placeholderPat x ++ flattenChunks cs := by
        simp [flattenChunks, chunkStr]
      by_cases hx : x = k
      · subst hx
        have hsub : substPh x v (Chunk.ph x :: cs) = Chunk.lit v :: substPh x v cs := by
          simp [substPh]
        rw [hflat, hsub]
        rw [replaceAllLit_append_self _ _ _ (by simp [placeholderPat])]
        rw [ihcs]
        simp [flattenChunks, chunkStr]
      · have hsub : substPh k v (Chunk.ph x :: cs) = Chunk.ph x :: substPh k v cs := by
          simp [substPh, hx]
        rw [hflat, hsub]
        rw [replaceAllLit_skip_ph k x _ _ hk
          (by simpa [goodChunk] using hs) hx]
        rw [ihcs]
        simp [flattenChunks, chunkStr]

end ExternalNotify

namespace ExternalNotify

theorem foldl_replace_flatten (vars : List (String × JVal)) :
    ∀ cs : List Chunk, (∀ c ∈ cs, goodChunk c) → goodVars vars = true →
    vars.foldl
      (fun result kv => replaceAllLit (placeholderPat kv.1) kv.2.display.data result)
      (flattenChunks cs) = flattenChunks (substAll vars cs) := by
  induction vars with
  | nil =>
    intro cs _ _
    simp [substAll]
  | cons kv vars ih =>
    intro cs hcs hgood
    simp only [goodVars, List.all_cons, Bool.and_eq_true] at hgood
    have hk : braceFree kv.1.data := hgood.1.1.1.1
    have hv : braceFree kv.2.display.data := hgood.1.1.2
    rw [List.foldl_cons]
    rw [replaceAllLit_flatten kv.1 kv.2.display hk cs hcs]
    have hrest : goodVars vars = true := by
      simp [goodVars, List.all_eq_true]
      intro a b hab
      have := hgood.2
      simp [List.all_eq_true] at this
      exact this a b hab
    rw [ih (substPh kv.1 kv.2.display cs) (substPh_good _ _ hv cs hcs) hrest]
    rfl

/-- C5 (amended): on every well formed template (brace free literal text
and keys) and every variable map whose keys are brace free and free of
regex metacharacters and whose rendered values are brace free and free of
dollar characters, the template engine replaces every placeholder
occurrence of every key present in the mapping by its rendered value
(falsy values render as the empty string), while a placeholder whose key
is missing from the mapping is left as the literal placeholder text, not
rendered as the empty string. Outside this domain the source behaves as a
raw regex replacement: a metacharacter key matches more than its literal
placeholder and a dollar sequence in a value is expanded (see
process_dollar_matched), so the claim restricts to the well formed
domain. -/
theorem c5_template_render (cs : List Chunk) (vars : List (String × JVal))
    (hcs : ∀ c ∈ cs, goodChunk c) (hvars : goodVars vars = true)
    (hne : flattenChunks cs ≠ []) :
    FormatTemplate.process (String.mk (flattenChunks cs)) vars =
      String.mk (flattenChunks (substAll vars cs)) := by
  unfold FormatTemplate.process
  rw [if_neg (fun h => hne (show (String.mk (flattenChunks cs)).data = ("" : String).data from by rw [h]))]
  congr 1
  have hdall : ∀ kv ∈ vars, dollarFree kv.2.display.data = true := by
    intro kv hkv
    simp only [goodVars, List.all_eq_true, Bool.and_eq_true] at hvars
    exact (hvars kv hkv).2
  rw [show (String.mk (flattenChunks cs)).data = flattenChunks cs from rfl]
  rw [foldl_replace_eq_lit vars hdall (flattenChunks cs)]
  exact foldl_replace_flatten vars cs hcs hvars

/-- C5 counterexample: the claim states that a placeholder whose variable is
missing from the mapping renders as the empty string; the code leaves the
literal placeholder text in the output instead. -/
theorem c5_counterexample :
    FormatTemplate.process "{{b}}" [("a", JVal.str "x")] = "{{b}}" ∧
      ("{{b}}" : String) ≠ "" := by
  constructor
  · have h := replaceAllLit_flatten "a" "x" (by decide) [Chunk.ph "b"] (by decide)
    unfold FormatTemplate.process
    rw [if_neg (by decide)]
    rw [List.foldl_cons, List.foldl_nil]
    have e1 : ("{{b}}" : String).data = flattenChunks [Chunk.ph "b"] := by decide
    have e2 : (JVal.str "x").display = "x" := by decide
    rw [e1, e2]
    rw [replaceAll_eq_lit _ _ _ (by decide)]
    rw [h]
    decide
  · decide

/-- C5 witness: the amended theorem applied to the template of the spec
example, all placeholders of a present key replaced. -/
theorem c5_witness :
    FormatTemplate.process "{{a}}-{{a}}" [("a", JVal.str "x")] = "x-x" := by
  have h := c5_template_render [Chunk.ph "a", Chunk.lit "-", Chunk.ph "a"]
    [("a", JVal.str "x")] (by decide) (by decide) (by decide)
  have e1 : String.mk (flattenChunks [Chunk.ph "a", Chunk.lit "-", Chunk.ph "a"]) =
      "{{a}}-{{a}}" := by decide
  have e2 : String.mk (flattenChunks (substAll [("a", JVal.str "x")]
      [Chunk.ph "a", Chunk.lit "-", Chunk.ph "a"])) = "x-x" := by decide
  rw [e1, e2] at h
  exact h

/-- A dollar ampersand sequence in a replacement value re-inserts the
matched placeholder text, as JS String.replace does in the source: the
rendered output is the placeholder itself, not the literal two character
value. Dollar carrying values therefore sit outside the well formed
variable map domain that the template theorems restrict to. -/
theorem process_dollar_matched :
    FormatTemplate.process "{{message}}" [("message", JVal.str "$&")] =
      "{{message}}" := by
  unfold FormatTemplate.process
  rw [if_neg (by decide)]
  rw [List.foldl_cons, List.foldl_nil]
  show String.mk (replaceAll (placeholderPat "message")
    (JVal.str "$&").display.data ("{{message}}" : String).data) = _
  unfold replaceAll
  rw [show ("{{message}}" : String).data = placeholderPat "message" ++ []
    from by decide]
  rw [replaceAllAux_self _ _ _ _ (by decide)]
  rw [replaceAllAux_nil]
  decide

end ExternalNotify

namespace ExternalNotify

/-- C2: for every configuration, event, and presence state, shouldNotify
returns false whenever filters.onlyWhenAway is true and the identity is not
away; otherwise it returns true exactly when filters.highlights is true and
event.highlight is true, and false in every other case. -/
theorem c2_shouldNotify_policy (cfg : NMConfig) (m : MessageData) (away : Bool) :
    NotificationManager.shouldNotify cfg m ⟨some ⟨away⟩⟩ =
      if cfg.filters.onlyWhenAway = true ∧ away = false then false
      else (cfg.filters.highlights && m.highlight) := by
  unfold NotificationManager.shouldNotify
  cases h1 : cfg.filters.onlyWhenAway <;> cases away <;>
    cases h2 : cfg.filters.highlights <;> cases h3 : m.highlight <;> simp_all

/-- C4: for events with identical network, channel, and nick, the
deduplication keys are equal exactly when the messages agree on their first
50 characters: agreeing prefixes give equal keys and differing prefixes give
different keys. -/
theorem c4_dedup_key (m1 m2 : MessageData)
    (hn : m1.network = m2.network) (hc : m1.channel = m2.channel)
    (hk : m1.nick = m2.nick) :
    (substringTo m1.message 50 = substringTo m2.message 50 →
      NotificationManager.getDeduplicationKey m1 =
        NotificationManager.getDeduplicationKey m2) ∧
    (substringTo m1.message 50 ≠ substringTo m2.message 50 →
      NotificationManager.getDeduplicationKey m1 ≠
        NotificationManager.getDeduplicationKey m2) := by
  unfold NotificationManager.getDeduplicationKey
  rw [hn, hc, hk]
  constructor
  · intro h
    rw [h]
  · intro h he
    apply h
    have hd := congrArg String.data he
    simp only [String.data_append, List.append_assoc] at hd
    have h1 := List.append_cancel_left hd
    have h2 := List.append_cancel_left h1
    have h3 := List.append_cancel_left h2
    have h4 := List.append_cancel_left h3
    have h5 := List.append_cancel_left h4
    have h6 := List.append_cancel_left h5
    exact String.ext h6

/-- C4 witness: the theorem applied to two concrete events sharing network,
channel and nick whose messages differ within the first 50 characters. -/
theorem c4_dedup_key_witness :
    NotificationManager.getDeduplicationKey
        ⟨"message", "freenode", "#test", "bob", "hello", true, 0⟩ ≠
      NotificationManager.getDeduplicationKey
        ⟨"message", "freenode", "#test", "bob", "goodbye", true, 0⟩ :=
  (c4_dedup_key ⟨"message", "freenode", "#test", "bob", "hello", true, 0⟩
    ⟨"message", "freenode", "#test", "bob", "goodbye", true, 0⟩
    rfl rfl rfl).2 (by decide)

/-- C6 counterexample: the claim states that a channel on the blacklist is
never notified; the code notifies a highlighted message from a blacklisted
channel because shouldNotify never consults the channels filter. -/
theorem c6_counterexample :
    (NMConfig.mk ⟨false, true, some ⟨[], ["#blocked"]⟩⟩ none).filters.channels =
        some ⟨[], ["#blocked"]⟩ ∧
    "#blocked" ∈ (ChannelsFilter.mk [] ["#blocked"]).blacklist ∧
    NotificationManager.shouldNotify
      (NMConfig.mk ⟨false, true, some ⟨[], ["#blocked"]⟩⟩ none)
      ⟨"message", "freenode", "#blocked", "bob", "hi", true, 0⟩
      ⟨some ⟨false⟩⟩ = true := by
  refine ⟨rfl, by simp, by decide⟩

/-- C6 (amended): shouldNotify ignores the channels filter entirely; its
result is unchanged under any replacement of the whitelist and blacklist
block, so neither list gates notification. -/
theorem c6_channels_ignored (ow hl : Bool) (ch1 ch2 : Option ChannelsFilter)
    (fmt : Option FormatConfig) (m : MessageData) (client : ClientInfo) :
    NotificationManager.shouldNotify ⟨⟨ow, hl, ch1⟩, fmt⟩ m client =
      NotificationManager.shouldNotify ⟨⟨ow, hl, ch2⟩, fmt⟩ m client := by
  unfold NotificationManager.shouldNotify
  rfl

end ExternalNotify

namespace ExternalNotify

namespace NotificationManager

theorem promiseAll_cons {α : Type} (r : Except String α) (rs : List (Except String α)) :
    promiseAll (r :: rs) =
      match r with
      | .error e => .error e
      | .ok v =>
        match promiseAll rs with
        | .ok vs => .ok (v :: vs)
        | .error e => .error e := by
  rw [promiseAll.eq_def]

theorem promiseAll_attempts (notifs : List NotifierEntry) (n : Notification) :
    promiseAll (notifs.map (fun nb => sendAttempt nb n)) =
      .ok (notifs.map (fun nb =>
        match nb.send n with
        | .ok _ => some nb.name
        | .error _ => none)) := by
  induction notifs with
  | nil => rfl
  | cons nb rest ih =>
    simp only [List.map_cons]
    rw [promiseAll_cons, ih]
    cases h : nb.send n with
    | ok u => simp [sendAttempt, h]
    | error e => simp [sendAttempt, h]

theorem processMessage_fresh (cfg : NMConfig) (notifiers : List NotifierEntry)
    (recent : List String) (m : MessageData) (client : ClientInfo)
    (hsn : shouldNotify cfg m client = true)
    (hfresh : getDeduplicationKey m ∉ recent) :
    processMessage cfg notifiers recent m client =
      (.ok (some
        { notification := formatNotification cfg m
        , services := (notifiers.map (fun nb =>
            match nb.send (formatNotification cfg m) with
            | .ok _ => some nb.name
            | .error _ => none)).filterMap id
        , messageData := m }), getDeduplicationKey m :: recent) := by
  unfold processMessage
  rw [hsn]
  simp only [Bool.not_true, Bool.false_eq_true, if_false]
  rw [if_neg hfresh]
  rw [promiseAll_attempts]

theorem mem_services_iff (notifs : List NotifierEntry) (n : Notification) (nm : String) :
    nm ∈ (notifs.map (fun nb =>
        match nb.send n with
        | .ok _ => some nb.name
        | .error _ => none)).filterMap id ↔
      ∃ nb ∈ notifs, nb.name = nm ∧ exceptOk (nb.send n) = true := by
  rw [List.mem_filterMap]
  constructor
  · rintro ⟨o, ho, hid⟩
    rw [List.mem_map] at ho
    obtain ⟨nb, hnb, hf⟩ := ho
    refine ⟨nb, hnb, ?_⟩
    cases h : nb.send n with
    | ok u =>
      rw [h] at hf
      simp only [id] at hid
      rw [← hf] at hid
      exact ⟨Option.some_injective _ hid, rfl⟩
    | error e =>
      rw [h] at hf
      rw [← hf] at hid
      simp at hid
  · rintro ⟨nb, hnb, hname, hok⟩
    refine ⟨some nm, ?_, rfl⟩
    rw [List.mem_map]
    refine ⟨nb, hnb, ?_⟩
    cases h : nb.send n with
    | ok u => rw [hname]
    | error e =>
      rw [h] at hok
      simp [exceptOk] at hok

end NotificationManager

end ExternalNotify

namespace ExternalNotify

/-- C1: for every event that passes the filter and dedup checks and every
map of active notifiers with distinct names, whatever mix of resolving and
rejecting sends, processMessage resolves (no exception escapes it) with a
non null result whose services list contains exactly the names of the
notifiers whose send resolved, and every failing notifier is absent from
that list and unable to prevent the others from completing. -/
theorem c1_fanout_isolation (cfg : NMConfig)
    (notifiers : List NotificationManager.NotifierEntry)
    (recent : List String) (m : MessageData) (client : ClientInfo)
    (hsn : NotificationManager.shouldNotify cfg m client = true)
    (hfresh : NotificationManager.getDeduplicationKey m ∉ recent)
    (hnames : (notifiers.map (fun nb => nb.name)).Nodup) :
    ∃ r : NotificationManager.DispatchResult,
      NotificationManager.processMessage cfg notifiers recent m client =
        (.ok (some r), NotificationManager.getDeduplicationKey m :: recent) ∧
      (∀ nm, nm ∈ r.services ↔ ∃ nb ∈ notifiers, nb.name = nm ∧
        exceptOk (nb.send (NotificationManager.formatNotification cfg m)) = true) ∧
      (∀ nb ∈ notifiers,
        exceptOk (nb.send (NotificationManager.formatNotification cfg m)) = false →
          nb.name ∉ r.services) := by
  refine ⟨_,
    NotificationManager.processMessage_fresh cfg notifiers recent m client hsn hfresh,
    fun nm => NotificationManager.mem_services_iff notifiers _ nm, ?_⟩
  intro nb hnb hfail hmem
  rw [NotificationManager.mem_services_iff] at hmem
  obtain ⟨nb2, hnb2, hname2, hok2⟩ := hmem
  have heq : nb2 = nb := List.inj_on_of_nodup_map hnames hnb2 hnb hname2
  rw [heq, hfail] at hok2
  exact Bool.false_ne_true hok2

/-- C1 witness: two active notifiers, one whose send rejects and one whose
send resolves; processMessage resolves with a result whose services list
contains the succeeding name and not the failing one. -/
theorem c1_fanout_isolation_witness :
    ∃ r : NotificationManager.DispatchResult,
      NotificationManager.processMessage
        ⟨⟨false, true, none⟩, none⟩
        [⟨"good", fun _ => Except.ok ()⟩, ⟨"bad", fun _ => Except.error "boom"⟩]
        [] ⟨"message", "freenode", "#test", "bob", "hi", true, 0⟩ ⟨some ⟨false⟩⟩ =
        (.ok (some r),
          NotificationManager.getDeduplicationKey
            ⟨"message", "freenode", "#test", "bob", "hi", true, 0⟩ :: []) ∧
      "good" ∈ r.services ∧ "bad" ∉ r.services := by
  obtain ⟨r, hpm, hmem, habs⟩ := c1_fanout_isolation
    ⟨⟨false, true, none⟩, none⟩
    [⟨"good", fun _ => Except.ok ()⟩, ⟨"bad", fun _ => Except.error "boom"⟩]
    [] ⟨"message", "freenode", "#test", "bob", "hi", true, 0⟩ ⟨some ⟨false⟩⟩
    (by decide) (by decide) (by decide)
  refine ⟨r, hpm, ?_, ?_⟩
  · exact (hmem "good").mpr ⟨⟨"good", fun _ => Except.ok ()⟩, by simp, rfl, rfl⟩
  · exact habs ⟨"bad", fun _ => Except.error "boom"⟩ (by simp) rfl

/-- C3: for every event that passes the filters, two processMessage calls
with an identical event within the same dedup cycle (no bulk clear in
between) yield exactly one non null result: the first call records the key
and resolves with a result, the second call resolves with null because the
key was already seen. -/
theorem c3_dedup_once (cfg : NMConfig)
    (notifiers : List NotificationManager.NotifierEntry)
    (recent : List String) (m : MessageData) (client : ClientInfo)
    (hsn : NotificationManager.shouldNotify cfg m client = true)
    (hfresh : NotificationManager.getDeduplicationKey m ∉ recent) :
    (∃ r : NotificationManager.DispatchResult,
      NotificationManager.processMessage cfg notifiers recent m client =
        (.ok (some r), NotificationManager.getDeduplicationKey m :: recent)) ∧
    NotificationManager.processMessage cfg notifiers
        (NotificationManager.getDeduplicationKey m :: recent) m client =
      (.ok none, NotificationManager.getDeduplicationKey m :: recent) := by
  constructor
  · exact ⟨_,
      NotificationManager.processMessage_fresh cfg notifiers recent m client hsn hfresh⟩
  · unfold NotificationManager.processMessage
    rw [hsn]
    simp only [Bool.not_true, Bool.false_eq_true, if_false]
    rw [if_pos (by simp)]

/-- C3 witness: the theorem applied to a concrete passing event with an
empty dedup set. -/
theorem c3_dedup_once_witness :
    (∃ r : NotificationManager.DispatchResult,
      NotificationManager.processMessage ⟨⟨false, true, none⟩, none⟩
        [⟨"good", fun _ => Except.ok ()⟩] []
        ⟨"message", "freenode", "#test", "bob", "hi", true, 0⟩ ⟨some ⟨false⟩⟩ =
        (.ok (some r),
          NotificationManager.getDeduplicationKey
            ⟨"message", "freenode", "#test", "bob", "hi", true, 0⟩ :: [])) ∧
    NotificationManager.processMessage ⟨⟨false, true, none⟩, none⟩
        [⟨"good", fun _ => Except.ok ()⟩]
        (NotificationManager.getDeduplicationKey
          ⟨"message", "freenode", "#test", "bob", "hi", true, 0⟩ :: [])
        ⟨"message", "freenode", "#test", "bob", "hi", true, 0⟩ ⟨some ⟨false⟩⟩ =
      (.ok none,
        NotificationManager.getDeduplicationKey
          ⟨"message", "freenode", "#test", "bob", "hi", true, 0⟩ :: []) :=
  c3_dedup_once ⟨⟨false, true, none⟩, none⟩ [⟨"good", fun _ => Except.ok ()⟩] []
    ⟨"message", "freenode", "#test", "bob", "hi", true, 0⟩ ⟨some ⟨false⟩⟩
    (by decide) (by decide)

end ExternalNotify

namespace ExternalNotify

theorem normalizeDescriptor_idem (k : String) (d : RawDescriptor) :
    BaseNotifier.normalizeDescriptor k (BaseNotifier.normalizeDescriptor k d) =
      BaseNotifier.normalizeDescriptor k d := by
  rcases d with ⟨dv, ev, ds, rq, ve, va⟩
  cases rq <;> cases ev <;> cases dv <;> cases ve <;> cases va <;>
    simp [BaseNotifier.normalizeDescriptor]

/-- C7 counterexample: the claim states that normalization produces a map in
which every field has all five attributes; a field declared with an empty
descriptor still lacks both its default and its example after normalization
(only required, validationError and validate are synthesized). -/
theorem c7_counterexample :
    (BaseNotifier.setRegisterVariables [("f", {})]).map
      (fun kv => (kv.2.defaultVal.isSome, kv.2.exampleVal.isSome)) =
      [(false, false)] := by
  rfl

/-- C7 (amended): normalization gives every field a required flag (false
when absent), an example copied from the default when the example is absent
but a default is present, a synthesized validation error text when absent,
and an always true validator when absent, while preserving present
attributes, the declared default and the description; the default itself is
never synthesized, so a field without default and example keeps neither.
The normalization is idempotent. -/
theorem c7_normalization (value : List (String × RawDescriptor))
    (k : String) (d : RawDescriptor) :
    (BaseNotifier.normalizeDescriptor k d).required =
        some (d.required.getD false) ∧
    (BaseNotifier.normalizeDescriptor k d).exampleVal =
        d.exampleVal.orElse (fun _ => d.defaultVal) ∧
    (BaseNotifier.normalizeDescriptor k d).validationError =
        some (d.validationError.getD ("Invalid value for " ++ k)) ∧
    (BaseNotifier.normalizeDescriptor k d).validate =
        some (d.validate.getD (fun _ => true)) ∧
    (BaseNotifier.normalizeDescriptor k d).defaultVal = d.defaultVal ∧
    (BaseNotifier.normalizeDescriptor k d).description = d.description ∧
    BaseNotifier.setRegisterVariables (BaseNotifier.setRegisterVariables value) =
      BaseNotifier.setRegisterVariables value := by
  refine ⟨?_, ?_, ?_, ?_, ?_, ?_, ?_⟩
  case _ =>
    rcases d with ⟨dv, ev, ds, rq, ve, va⟩
    cases rq <;> cases ev <;> cases dv <;> cases ve <;> cases va <;>
      simp [BaseNotifier.normalizeDescriptor]
  case _ =>
    rcases d with ⟨dv, ev, ds, rq, ve, va⟩
    cases rq <;> cases ev <;> cases dv <;> cases ve <;> cases va <;>
      simp [BaseNotifier.normalizeDescriptor, Option.orElse]
  case _ =>
    rcases d with ⟨dv, ev, ds, rq, ve, va⟩
    cases rq <;> cases ev <;> cases dv <;> cases ve <;> cases va <;>
      simp [BaseNotifier.normalizeDescriptor]
  case _ =>
    rcases d with ⟨dv, ev, ds, rq, ve, va⟩
    cases rq <;> cases ev <;> cases dv <;> cases ve <;> cases va <;>
      simp [BaseNotifier.normalizeDescriptor]
  case _ =>
    rcases d with ⟨dv, ev, ds, rq, ve, va⟩
    cases rq <;> cases ev <;> cases dv <;> cases ve <;> cases va <;>
      simp [BaseNotifier.normalizeDescriptor]
  case _ =>
    rcases d with ⟨dv, ev, ds, rq, ve, va⟩
    cases rq <;> cases ev <;> cases dv <;> cases ve <;> cases va <;>
      simp [BaseNotifier.normalizeDescriptor]
  case _ =>
    unfold BaseNotifier.setRegisterVariables
    rw [List.map_map]
    apply List.map_congr_left
    intro kv _
    simp only [Function.comp]
    rw [normalizeDescriptor_idem]

end ExternalNotify

namespace ExternalNotify

/-- C10: validate and validateWithLogging return the same boolean; both
walk the declared fields in order, and the shared boolean is false exactly
when some field fails its required or validator check (a required field
whose stored value is undefined, null or the empty string, or a field whose
validator rejects its value), the two differing only in the reporting of
the failing validationError. -/
theorem c10_validate_equiv (vars : List (String × RawDescriptor))
    (name : String) (cfg : JObj) :
    (BaseNotifier.validateWithLogging name vars cfg).1 =
        BaseNotifier.validate vars cfg ∧
    (BaseNotifier.validate vars cfg = false ↔
      ∃ kv ∈ vars, BaseNotifier.descriptorFails kv cfg = true) := by
  constructor
  · induction vars with
    | nil => rfl
    | cons kv rest ih =>
      obtain ⟨key, v⟩ := kv
      simp only [BaseNotifier.validate, BaseNotifier.validateWithLogging]
      by_cases h1 : (v.required.getD false &&
          decide (BaseNotifier.configGet cfg key = none ∨
            BaseNotifier.configGet cfg key = some JVal.null ∨
            BaseNotifier.configGet cfg key = some (JVal.str ""))) = true
      · rw [if_pos h1, if_pos h1]
      · rw [if_neg h1, if_neg h1]
        by_cases h2 : (match v.validate with
            | some f => !f (BaseNotifier.configGet cfg key)
            | none => false) = true
        · rw [if_pos h2, if_pos h2]
        · rw [if_neg h2, if_neg h2]
          exact ih
  · induction vars with
    | nil =>
      simp [BaseNotifier.validate]
    | cons kv rest ih =>
      obtain ⟨key, v⟩ := kv
      simp only [BaseNotifier.validate]
      by_cases h1 : (v.required.getD false &&
          decide (BaseNotifier.configGet cfg key = none ∨
            BaseNotifier.configGet cfg key = some JVal.null ∨
            BaseNotifier.configGet cfg key = some (JVal.str ""))) = true
      · rw [if_pos h1]
        constructor
        · intro _
          refine ⟨(key, v), by simp, ?_⟩
          simp only [BaseNotifier.descriptorFails, Bool.or_eq_true]
          exact Or.inl h1
        · intro _
          rfl
      · rw [if_neg h1]
        by_cases h2 : (match v.validate with
            | some f => !f (BaseNotifier.configGet cfg key)
            | none => false) = true
        · rw [if_pos h2]
          constructor
          · intro _
            refine ⟨(key, v), by simp, ?_⟩
            simp only [BaseNotifier.descriptorFails, Bool.or_eq_true]
            exact Or.inr h2
          · intro _
            rfl
        · rw [if_neg h2]
          rw [ih]
          constructor
          · rintro ⟨kv2, hkv2, hfail⟩
            exact ⟨kv2, by simp [hkv2], hfail⟩
          · rintro ⟨kv2, hkv2, hfail⟩
            rcases List.mem_cons.mp hkv2 with heq | hmem
            · subst heq
              simp only [BaseNotifier.descriptorFails, Bool.or_eq_true] at hfail
              rcases hfail with hf1 | hf2
              · exact absurd hf1 h1
              · exact absurd hf2 h2
            · exact ⟨kv2, hmem, hfail⟩

end ExternalNotify

namespace ExternalNotify

namespace BaseNotifier

theorem handleConfig_unknown (n : NotifierState) (config : ConfigDoc)
    (ss : List (String × JObj)) (svc : JObj) (setting value : String)
    (h1 : config.services = some ss)
    (h2 : alistGet ss n.name = some svc)
    (hfind : n.registerVariables.find?
      (fun kv => jsToLower kv.1 = jsToLower setting) = none) :
    handleConfig n config setting value =
      (config,
       { success := false
       , messages :=
          [ Ferror ("Unknown " ++ n.name ++ " setting: " ++ Ccolor ++ setting ++ Ccolor)
          , Findent 1 ++ "Valid settings: " ++ Ccolor ++
              String.intercalate ", " (n.registerVariables.map (fun kv => kv.1)) ++
              Ccolor ] }) := by
  cases config with
  | mk so =>
    cases h1
    unfold handleConfig
    simp only [Option.getD_some, h2, Option.isNone_some, Bool.false_eq_true,
      if_false, hfind]

theorem handleConfig_parse_error (n : NotifierState) (config : ConfigDoc)
    (ss : List (String × JObj)) (svc : JObj) (setting value : String)
    (k0 : String) (vd : RawDescriptor) (msgs : List String)
    (h1 : config.services = some ss)
    (h2 : alistGet ss n.name = some svc)
    (hfind : n.registerVariables.find?
      (fun kv => jsToLower kv.1 = jsToLower setting) = some (k0, vd))
    (hp : parseValue vd setting value = .error msgs) :
    handleConfig n config setting value =
      (config, { success := false, messages := msgs }) := by
  cases config with
  | mk so =>
    cases h1
    unfold handleConfig
    simp only [Option.getD_some, h2, Option.isNone_some, Bool.false_eq_true,
      if_false, hfind, hp]

theorem handleConfig_invalid (n : NotifierState) (config : ConfigDoc)
    (ss : List (String × JObj)) (svc : JObj) (setting value : String)
    (k0 : String) (vd : RawDescriptor) (pv : JVal)
    (h1 : config.services = some ss)
    (h2 : alistGet ss n.name = some svc)
    (hfind : n.registerVariables.find?
      (fun kv => jsToLower kv.1 = jsToLower setting) = some (k0, vd))
    (hp : parseValue vd setting value = .ok pv)
    (hv : (match vd.validate with
           | some f => !f (some pv)
           | none => false) = true) :
    handleConfig n config setting value =
      (config,
       { success := false
       , messages := [Ferror (vd.validationError.getD "undefined")] }) := by
  cases config with
  | mk so =>
    cases h1
    unfold handleConfig
    simp only [Option.getD_some, h2, Option.isNone_some, Bool.false_eq_true,
      if_false, hfind, hp, hv, if_true]

theorem handleConfig_known (n : NotifierState) (config : ConfigDoc)
    (ss : List (String × JObj)) (svc : JObj) (setting value : String)
    (k0 : String) (vd : RawDescriptor) (pv : JVal)
    (h1 : config.services = some ss)
    (h2 : alistGet ss n.name = some svc)
    (hfind : n.registerVariables.find?
      (fun kv => jsToLower kv.1 = jsToLower setting) = some (k0, vd))
    (hp : parseValue vd setting value = .ok pv)
    (hv : (match vd.validate with
           | some f => !f (some pv)
           | none => false) = false) :
    handleConfig n config setting value =
      (if !jsTruthy (alistGet (alistSet svc k0 pv) "enabled") &&
          validate n.registerVariables (alistSet svc k0 pv) then
        (⟨some (alistSet (alistSet ss n.name (alistSet svc k0 pv)) n.name
            (alistSet (alistSet svc k0 pv) "enabled" (JVal.bool true)))⟩,
         { success := true
         , messages :=
            [Fsuccess (n.name ++ " setting " ++ Ccolor ++ k0 ++ Ccolor ++ " updated")] ++
              [Fsuccess (n.name ++ " service auto-enabled (all required fields are set)")]
         , autoEnabled := some true })
      else
        (⟨some (alistSet ss n.name (alistSet svc k0 pv))⟩,
         { success := true
         , messages :=
            [Fsuccess (n.name ++ " setting " ++ Ccolor ++ k0 ++ Ccolor ++ " updated")]
         , autoEnabled := some false })) := by
  cases config with
  | mk so =>
    cases h1
    unfold handleConfig
    simp only [Option.getD_some, h2, Option.isNone_some, Bool.false_eq_true,
      if_false, hfind, hp, hv]

end BaseNotifier

end ExternalNotify

namespace ExternalNotify

/-- C8 counterexample: the claim states that an unknown setting name leaves
the configuration document unchanged; on a document with no services block
handleConfig materializes the default ServiceConfig entry for the provider
before rejecting the unknown name, so the document is changed. -/
theorem c8_counterexample :
    (BaseNotifier.handleConfig ⟨"svc", [("userKey", {})]⟩ ⟨none⟩ "bogus" "v").2.success
        = false ∧
    (BaseNotifier.handleConfig ⟨"svc", [("userKey", {})]⟩ ⟨none⟩ "bogus" "v").1
        ≠ ⟨none⟩ := by
  constructor
  · rfl
  · decide

/-- C8 (amended): on a document that already carries the service entry,
handleConfig resolves the submitted setting name case insensitively to the
canonical declared key; an unresolvable name yields an unsuccessful Unknown
setting result listing the valid field names and leaves the document
unchanged, while a successful mutation stores the parsed value under the
canonical key only, every other field key (the reserved enabled flag apart)
keeping its previous value, so no sibling key under the submitted casing is
created. On a document without the entry, the unknown path still
materializes the default ServiceConfig entry first (see the counterexample),
which is the one deviation from the original claim. -/
theorem c8_canonical_key (n : BaseNotifier.NotifierState)
    (config : BaseNotifier.ConfigDoc) (ss : List (String × JObj)) (svc : JObj)
    (setting value : String)
    (h1 : config.services = some ss)
    (h2 : alistGet ss n.name = some svc)
    (henb : ∀ kv ∈ n.registerVariables, kv.1 ≠ "enabled") :
    (n.registerVariables.find?
        (fun kv => jsToLower kv.1 = jsToLower setting) = none →
      BaseNotifier.handleConfig n config setting value =
        (config,
         { success := false
         , messages :=
            [ Ferror ("Unknown " ++ n.name ++ " setting: " ++ Ccolor ++ setting ++ Ccolor)
            , Findent 1 ++ "Valid settings: " ++ Ccolor ++
                String.intercalate ", " (n.registerVariables.map (fun kv => kv.1)) ++
                Ccolor ] })) ∧
    (∀ k0 vd, n.registerVariables.find?
        (fun kv => jsToLower kv.1 = jsToLower setting) = some (k0, vd) →
      (BaseNotifier.handleConfig n config setting value).2.success = true →
      ∃ ss2 svc2 pv,
        (BaseNotifier.handleConfig n config setting value).1.services = some ss2 ∧
        alistGet ss2 n.name = some svc2 ∧
        BaseNotifier.parseValue vd setting value = .ok pv ∧
        alistGet svc2 k0 = some pv ∧
        (∀ k, k ≠ k0 → k ≠ "enabled" → alistGet svc2 k = alistGet svc k)) := by
  constructor
  · intro hfind
    exact BaseNotifier.handleConfig_unknown n config ss svc setting value h1 h2 hfind
  · intro k0 vd hfind hsucc
    have hk0 : k0 ≠ "enabled" := by
      have hmem := List.mem_of_find?_eq_some hfind
      exact henb (k0, vd) hmem
    cases hp : BaseNotifier.parseValue vd setting value with
    | error msgs =>
      rw [BaseNotifier.handleConfig_parse_error n config ss svc setting value
        k0 vd msgs h1 h2 hfind hp] at hsucc
      simp at hsucc
    | ok pv =>
      cases hv : (match vd.validate with
                  | some f => !f (some pv)
                  | none => false) with
      | true =>
        rw [BaseNotifier.handleConfig_invalid n config ss svc setting value
          k0 vd pv h1 h2 hfind hp hv] at hsucc
        simp at hsucc
      | false =>
        rw [BaseNotifier.handleConfig_known n config ss svc setting value
          k0 vd pv h1 h2 hfind hp hv]
        by_cases hcond : (!jsTruthy (alistGet (alistSet svc k0 pv) "enabled") &&
            BaseNotifier.validate n.registerVariables (alistSet svc k0 pv)) = true
        · rw [if_pos hcond]
          refine ⟨_, alistSet (alistSet svc k0 pv) "enabled" (JVal.bool true), pv,
            rfl, alistGet_set_self _ _ _, rfl, ?_, ?_⟩
          · rw [alistGet_set_ne _ _ _ _ hk0, alistGet_set_self]
          · intro k hkk0 hken
            rw [alistGet_set_ne _ _ _ _ hken, alistGet_set_ne _ _ _ _ hkk0]
        · rw [if_neg hcond]
          refine ⟨_, alistSet svc k0 pv, pv,
            rfl, alistGet_set_self _ _ _, rfl, alistGet_set_self _ _ _, ?_⟩
          intro k hkk0 _
          rw [alistGet_set_ne _ _ _ _ hkk0]

end ExternalNotify

namespace ExternalNotify

/-- C8 witness: the amended theorem applied to a schema declaring userKey
and the submitted casing USERKEY; the value is stored under the canonical
userKey and no sibling key is created. -/
theorem c8_canonical_key_witness :
    ∃ ss2 svc2 pv,
      (BaseNotifier.handleConfig
        ⟨"svc", [("userKey", { required := some true
                             , exampleVal := some (JVal.str "X")
                             , validate := some (fun _ => true) })]⟩
        ⟨some [("svc", [("enabled", JVal.bool false)])]⟩
        "USERKEY" "abc").1.services = some ss2 ∧
      alistGet ss2 "svc" = some svc2 ∧
      BaseNotifier.parseValue
        { required := some true
        , exampleVal := some (JVal.str "X")
        , validate := some (fun _ => true) } "USERKEY" "abc" = .ok pv ∧
      alistGet svc2 "userKey" = some pv ∧
      (∀ k, k ≠ "userKey" → k ≠ "enabled" →
        alistGet svc2 k = alistGet [("enabled", JVal.bool false)] k) := by
  refine (c8_canonical_key
    ⟨"svc", [("userKey", { required := some true
                         , exampleVal := some (JVal.str "X")
                         , validate := some (fun _ => true) })]⟩
    ⟨some [("svc", [("enabled", JVal.bool false)])]⟩
    [("svc", [("enabled", JVal.bool false)])]
    [("enabled", JVal.bool false)]
    "USERKEY" "abc" rfl rfl ?_).2 "userKey" _ rfl rfl
  intro kv hkv
  rw [List.mem_singleton] at hkv
  subst hkv
  decide

/-- C9: after a successful field mutation, when the updated ServiceConfig
has a falsy enabled flag and now passes full validation, handleConfig sets
enabled to true and reports the distinct autoEnabled flag as true; when the
ServiceConfig is already enabled or still fails validation, the enabled
flag is left exactly as the mutation produced it and autoEnabled is false. -/
theorem c9_auto_enable (n : BaseNotifier.NotifierState)
    (config : BaseNotifier.ConfigDoc) (ss : List (String × JObj)) (svc : JObj)
    (setting value k0 : String) (vd : RawDescriptor) (pv : JVal)
    (h1 : config.services = some ss)
    (h2 : alistGet ss n.name = some svc)
    (hfind : n.registerVariables.find?
      (fun kv => jsToLower kv.1 = jsToLower setting) = some (k0, vd))
    (hp : BaseNotifier.parseValue vd setting value = .ok pv)
    (hv : (match vd.validate with
           | some f => !f (some pv)
           | none => false) = false) :
    (BaseNotifier.handleConfig n config setting value).2.success = true ∧
    ((jsTruthy (alistGet (alistSet svc k0 pv) "enabled") = false ∧
      BaseNotifier.validate n.registerVariables (alistSet svc k0 pv) = true) →
      (BaseNotifier.handleConfig n config setting value).2.autoEnabled = some true ∧
      ∃ ss2, (BaseNotifier.handleConfig n config setting value).1.services = some ss2 ∧
        alistGet ss2 n.name =
          some (alistSet (alistSet svc k0 pv) "enabled" (JVal.bool true))) ∧
    ((jsTruthy (alistGet (alistSet svc k0 pv) "enabled") = true ∨
      BaseNotifier.validate n.registerVariables (alistSet svc k0 pv) = false) →
      (BaseNotifier.handleConfig n config setting value).2.autoEnabled = some false ∧
      ∃ ss2, (BaseNotifier.handleConfig n config setting value).1.services = some ss2 ∧
        alistGet ss2 n.name = some (alistSet svc k0 pv)) := by
  rw [BaseNotifier.handleConfig_known n config ss svc setting value k0 vd pv
    h1 h2 hfind hp hv]
  refine ⟨?_, ?_, ?_⟩
  · by_cases hcond : (!jsTruthy (alistGet (alistSet svc k0 pv) "enabled") &&
        BaseNotifier.validate n.registerVariables (alistSet svc k0 pv)) = true
    · rw [if_pos hcond]
    · rw [if_neg hcond]
  · rintro ⟨hjs, hval⟩
    have hcond : (!jsTruthy (alistGet (alistSet svc k0 pv) "enabled") &&
        BaseNotifier.validate n.registerVariables (alistSet svc k0 pv)) = true := by
      rw [hjs, hval]
      rfl
    rw [if_pos hcond]
    exact ⟨rfl, _, rfl, alistGet_set_self _ _ _⟩
  · intro hdisj
    have hcond : (!jsTruthy (alistGet (alistSet svc k0 pv) "enabled") &&
        BaseNotifier.validate n.registerVariables (alistSet svc k0 pv)) = false := by
      rcases hdisj with hjs | hval
      · rw [hjs]
        rfl
      · rw [hval]
        simp
    rw [if_neg (by simp [hcond])]
    exact ⟨rfl, _, rfl, alistGet_set_self _ _ _⟩

/-- C9 witness: setting the one required field of a disabled ServiceConfig
to a valid value triggers auto enable with the distinct flag. -/
theorem c9_auto_enable_witness :
    (BaseNotifier.handleConfig
        ⟨"svc", [("userKey", { required := some true
                             , exampleVal := some (JVal.str "X")
                             , validate := some (fun v => match v with
                                 | some (JVal.str s) => decide (s ≠ "")
                                 | _ => false) })]⟩
        ⟨some [("svc", [("enabled", JVal.bool false)])]⟩
        "userkey" "abc").2.autoEnabled = some true ∧
    ∃ ss2,
      (BaseNotifier.handleConfig
        ⟨"svc", [("userKey", { required := some true
                             , exampleVal := some (JVal.str "X")
                             , validate := some (fun v => match v with
                                 | some (JVal.str s) => decide (s ≠ "")
                                 | _ => false) })]⟩
        ⟨some [("svc", [("enabled", JVal.bool false)])]⟩
        "userkey" "abc").1.services = some ss2 ∧
      alistGet ss2 "svc" =
        some (alistSet (alistSet [("enabled", JVal.bool false)] "userKey"
          (JVal.str "abc")) "enabled" (JVal.bool true)) :=
  (c9_auto_enable
    ⟨"svc", [("userKey", { required := some true
                         , exampleVal := some (JVal.str "X")
                         , validate := some (fun v => match v with
                             | some (JVal.str s) => decide (s ≠ "")
                             | _ => false) })]⟩
    ⟨some [("svc", [("enabled", JVal.bool false)])]⟩
    [("svc", [("enabled", JVal.bool false)])]
    [("enabled", JVal.bool false)]
    "userkey" "abc" "userKey" _ (JVal.str "abc")
    rfl rfl rfl rfl rfl).2.1 ⟨by decide, by decide⟩

end ExternalNotify
